import Mathlib

/-!
Shallow embedding of the study-session bot (src/study_bot.py): the session
lifecycle and credit-accounting engine.  Timestamps are rationals (seconds);
Python `int()` on a non-negative value truncates toward zero, modelled by
`pyInt`.  Persisted state (session records, monthly aggregates) is modelled
as explicit data passed through the database operations.
-/

namespace StudyBot

/-- Python `int()` applied to a rational: truncation toward zero. -/
def pyInt (q : ℚ) : ℤ := if 0 ≤ q then ⌊q⌋ else ⌈q⌉

/-- The fixed organization list (src/study_bot.py lines 41-44). -/
def ORGANIZATIONS : List String :=
  ["Wina", "VTK", "Atmosphere", "Chemica", "BIOS",
   "Atlas", "Politeia", "VRG", "Ekonomika", "Medica"]

/-- A channel member as the session sees it: id, bot flag, name, role names. -/
structure Member where
  id : ℕ
  bot : Bool
  name : String
  roles : List String
deriving DecidableEq

/-- `PomodoroSession.get_user_org` (lines 560-564): first role that is an
organization, else "None". -/
def get_user_org (m : Member) : String :=
  match m.roles.find? (fun r => ORGANIZATIONS.contains r) with
  | some r => r
  | none => "None"

/-- The non-bot filter applied to every occupant snapshot
(`[m for m in channel.members if not m.bot]`). -/
def nonBot (ms : List Member) : List Member := ms.filter (fun m => !m.bot)

/-- Per-participant data kept in `self.participants` (lines 299-304). -/
structure ParticipantData where
  user : Member
  organization : String
  join_time : ℚ
  late_join : Bool
deriving DecidableEq

/-- Association-list lookup, modelling Python dict key access
(first binding wins; the lists we build have unique keys). -/
def alookup {α β : Type} [DecidableEq α] (k : α) : List (α × β) → Option β
  | [] => none
  | (k2, v) :: rest => if k = k2 then some v else alookup k rest

/-- Mutable state of one `PomodoroSession`. `participants` is the
insertion-ordered dict `self.participants` keyed by member id. -/
structure Session where
  duration : ℤ
  break_time : ℤ
  participants : List (ℕ × ParticipantData)
  session_start : ℚ
  is_running : Bool

/-- `PomodoroSession.add_participant` (lines 293-304).  `now` is the value of
the `datetime.now()` call made inside the method; the late flag is
`join_time > self.session_start`. -/
def add_participant (now : ℚ) (m : Member) (s : Session) : Session :=
  if (alookup m.id s.participants).isSome then s
  else { s with participants :=
          s.participants ++ [(m.id, ⟨m, get_user_org m, now, decide (s.session_start < now)⟩)] }

/-- The seeding phase of `PomodoroSession.start` (lines 254-258): record
`session_start := t0`, then call `add_participant` once per initial member;
each call makes its own clock reading, given here as the second component of
the seed pair. -/
def startSeed (t0 : ℚ) (seeds : List (Member × ℚ)) (dur brk : ℤ) : Session :=
  seeds.foldl (fun s pr => add_participant pr.2 pr.1 s)
    { duration := dur, break_time := brk, participants := [],
      session_start := t0, is_running := true }

/-- The per-participant credit computation inside
`PomodoroSession.award_credit` (lines 414-422), exactly as coded:
`min(int(time_in_session), duration)`, then for late joiners additionally
capped at `max(0, duration - int(session_elapsed))`. -/
def minutes_to_award (duration : ℤ) (session_start study_end : ℚ)
    (p : ParticipantData) : ℤ :=
  let time_in_session : ℚ := (study_end - p.join_time) / 60
  let m := min (pyInt time_in_session) duration
  if p.late_join then
    let session_elapsed : ℚ := (p.join_time - session_start) / 60
    let max_possible := max 0 (duration - pyInt session_elapsed)
    min m max_possible
  else m

/-- Modelled from the spec (section 4.2): the Credit Accountant formula as the
spec words it, with floor semantics, for comparison with `minutes_to_award`. -/
def creditSpec (studyMinutes : ℤ) (session_start join_time study_end : ℚ)
    (late : Bool) : ℤ :=
  let t := ⌊(study_end - join_time) / 60⌋
  let m := min t studyMinutes
  if late then min m (max 0 (studyMinutes - ⌊(join_time - session_start) / 60⌋))
  else m

/-- A concrete member used to instantiate theorems on concrete inputs. -/
def demoMember : Member := ⟨1, false, "ada", []⟩

theorem pyInt_of_nonneg {q : ℚ} (h : 0 ≤ q) : pyInt q = ⌊q⌋ := if_pos h

/-- C1: for a participant evaluated at settlement, the awarded credit equals
`min(floor((study_end - join_time)/60), studyMinutes)`, further capped — when
the late flag is set — at `max(0, studyMinutes - floor((join_time -
session_start)/60))`; the result is a non-negative integer.  In particular,
with studyMinutes = 25, a participant joining 600 seconds (10 minutes) after a
session started at time 0 who is still present at the study end (1500 s) is
awarded exactly 15 minutes. -/
theorem award_credit_matches_spec :
    (∀ (d : ℤ) (ss se : ℚ) (p : ParticipantData),
      0 ≤ d → p.join_time ≤ se → (p.late_join = true → ss ≤ p.join_time) →
      minutes_to_award d ss se p = creditSpec d ss p.join_time se p.late_join ∧
        0 ≤ minutes_to_award d ss se p) ∧
    minutes_to_award 25 0 1500 ⟨demoMember, "None", 600, true⟩ = 15 := by
  constructor
  · intro d ss se p hd hj hl
    have h1 : (0 : ℚ) ≤ (se - p.join_time) / 60 := by
      apply div_nonneg (by linarith) (by norm_num)
    have hf1 : 0 ≤ ⌊(se - p.join_time) / 60⌋ := Int.floor_nonneg.2 h1
    cases hlate : p.late_join with
    | false =>
      constructor
      · simp [minutes_to_award, creditSpec, hlate, pyInt_of_nonneg h1]
      · simp only [minutes_to_award, hlate, if_false, pyInt_of_nonneg h1]
        exact le_min hf1 hd
    | true =>
      have h2 : (0 : ℚ) ≤ (p.join_time - ss) / 60 := by
        have := hl hlate
        apply div_nonneg (by linarith) (by norm_num)
      constructor
      · simp [minutes_to_award, creditSpec, hlate, pyInt_of_nonneg h1,
          pyInt_of_nonneg h2]
      · simp only [minutes_to_award, hlate, if_true, pyInt_of_nonneg h1,
          pyInt_of_nonneg h2]
        exact le_min (le_min hf1 hd) (le_max_left 0 _)
  · norm_num [minutes_to_award, pyInt]

/-- Witness for C1: the general statement applied at the advertised example
(join 10 minutes late into a 25-minute study, stay to the end). -/
theorem award_credit_matches_spec_witness :
    minutes_to_award 25 0 1500 ⟨demoMember, "None", 600, true⟩ =
        creditSpec 25 0 600 1500 true ∧
      0 ≤ minutes_to_award 25 0 1500 ⟨demoMember, "None", 600, true⟩ :=
  award_credit_matches_spec.1 25 0 1500 ⟨demoMember, "None", 600, true⟩
    (by norm_num) (by norm_num) (fun _ => by norm_num)

/-- One iteration of the `monitor_late_joiners` scan (lines 312-317): every
non-bot occupant whose id is not yet a participant is added.  Each addition
in the source takes its own clock reading; a single `now` per scan is used
here, which is general enough because the theorems below do not depend on
the reading chosen for the newly added members. -/
def monitor_scan (now : ℚ) (snapshot : List Member) (s : Session) : Session :=
  (nonBot snapshot).foldl
    (fun st m => if (alookup m.id st.participants).isSome then st
                 else add_participant now m st) s

theorem alookup_append_left {α β : Type} [DecidableEq α] {k : α} {l : List (α × β)}
    {v : β} (h : alookup k l = some v) (l2 : List (α × β)) :
    alookup k (l ++ l2) = some v := by
  induction l with
  | nil => simp [alookup] at h
  | cons e rest ih =>
    obtain ⟨k2, v2⟩ := e
    by_cases hk : k = k2
    · simp [alookup, hk] at h ⊢
      exact h
    · simp [alookup, hk] at h ⊢
      exact ih h

theorem add_participant_preserves {now : ℚ} {m : Member} {s : Session}
    {id : ℕ} {p : ParticipantData} (h : alookup id s.participants = some p) :
    alookup id (add_participant now m s).participants = some p := by
  unfold add_participant
  by_cases hm : (alookup m.id s.participants).isSome
  · simp [hm, h]
  · simp [hm]
    exact alookup_append_left h _

theorem add_participant_session_start (now : ℚ) (m : Member) (s : Session) :
    (add_participant now m s).session_start = s.session_start := by
  unfold add_participant
  by_cases hm : (alookup m.id s.participants).isSome <;> simp [hm]

/-- Every participant of the session built by the seeding fold either was
already present or stems from one of the seeds, with its join time equal to
that seed's clock reading and its late flag comparing that reading to
`session_start`. -/
theorem seed_foldl_provenance (t0 : ℚ) :
    ∀ (seeds : List (Member × ℚ)) (s : Session), s.session_start = t0 →
      ∀ e ∈ (seeds.foldl (fun st pr => add_participant pr.2 pr.1 st) s).participants,
        e ∈ s.participants ∨
          ∃ pr ∈ seeds, e.2.join_time = pr.2 ∧ e.2.late_join = decide (t0 < pr.2) := by
  intro seeds
  induction seeds with
  | nil => intro s hs e he; exact Or.inl he
  | cons pr rest ih =>
    intro s hs e he
    simp only [List.foldl_cons] at he
    have hs2 : (add_participant pr.2 pr.1 s).session_start = t0 := by
      rw [add_participant_session_start]; exact hs
    rcases ih (add_participant pr.2 pr.1 s) hs2 e he with h1 | h2
    · unfold add_participant at h1
      by_cases hm : (alookup pr.1.id s.participants).isSome
      · simp [hm] at h1
        exact Or.inl h1
      · simp [hm] at h1
        rcases h1 with h1 | h1
        · exact Or.inl h1
        · subst h1
          exact Or.inr ⟨pr, List.mem_cons_self pr rest, rfl, by rw [hs]⟩
    · obtain ⟨pr2, hpr2, hrest⟩ := h2
      exact Or.inr ⟨pr2, List.mem_cons_of_mem pr hpr2, hrest⟩

/-- C4 counterexample: `add_participant` takes a fresh clock reading for each
seeded member, so a seeded participant whose reading is one second after
`session_start` gets `late_join = true` and `join_time ≠ sessionStart`,
contradicting the claim that every seeded participant has `late = false` and
`join_time = sessionStart`. -/
theorem start_seed_counterexample :
    (0 : ℚ) ≤ 1 ∧
      ∃ e ∈ (startSeed 0 [(demoMember, 1)] 25 5).participants,
        ¬ (e.2.late_join = false ∧ e.2.join_time = 0) := by
  refine ⟨by norm_num, ⟨(1, ⟨demoMember, "None", 1, true⟩), ?_, ?_⟩⟩
  · have h : (startSeed 0 [(demoMember, 1)] 25 5).participants =
        [(1, ⟨demoMember, "None", 1, true⟩)] := by
      simp [startSeed, add_participant, alookup, get_user_org, ORGANIZATIONS,
        demoMember]
    rw [h]
    exact List.mem_singleton.2 rfl
  · simp

/-- C4 amended: each seeded participant's `join_time` is the clock reading of
its own `add_participant` call (at or after `sessionStart`, under a monotone
clock), and its late flag is true iff that reading is strictly after
`sessionStart`; in the case where the clock has not advanced between
recording `sessionStart` and seeding, every seeded participant has
`late = false` and `join_time = sessionStart`, as the claim states. -/
theorem start_seed_amended (t0 : ℚ) (seeds : List (Member × ℚ)) (dur brk : ℤ)
    (hmono : ∀ pr ∈ seeds, t0 ≤ pr.2) :
    (∀ e ∈ (startSeed t0 seeds dur brk).participants,
        t0 ≤ e.2.join_time ∧ e.2.late_join = decide (t0 < e.2.join_time)) ∧
      ((∀ pr ∈ seeds, pr.2 = t0) →
        ∀ e ∈ (startSeed t0 seeds dur brk).participants,
          e.2.late_join = false ∧ e.2.join_time = t0) := by
  have hprov := seed_foldl_provenance t0 seeds
    { duration := dur, break_time := brk, participants := [],
      session_start := t0, is_running := true } rfl
  constructor
  · intro e he
    rcases hprov e he with h | ⟨pr, hpr, hjt, hlt⟩
    · simp at h
    · rw [hjt, hlt]
      exact ⟨hmono pr hpr, rfl⟩
  · intro hall e he
    rcases hprov e he with h | ⟨pr, hpr, hjt, hlt⟩
    · simp at h
    · rw [hjt, hlt, hall pr hpr]
      simp

/-- Witness for C4's amended statement, at a seed whose clock reading equals
`sessionStart`. -/
theorem start_seed_amended_witness :
    (∀ e ∈ (startSeed 0 [(demoMember, 0)] 25 5).participants,
        (0 : ℚ) ≤ e.2.join_time ∧ e.2.late_join = decide ((0 : ℚ) < e.2.join_time)) ∧
      ((∀ pr ∈ [(demoMember, (0 : ℚ))], pr.2 = 0) →
        ∀ e ∈ (startSeed 0 [(demoMember, 0)] 25 5).participants,
          e.2.late_join = false ∧ e.2.join_time = 0) :=
  start_seed_amended 0 [(demoMember, 0)] 25 5 (by simp)

/-- A concrete participant and session for instantiating theorems. -/
def demoParticipant : ParticipantData := ⟨demoMember, "None", 0, false⟩

def demoSession : Session :=
  ⟨25, 5, [(1, demoParticipant)], 0, true⟩

/-- C10: `add_participant` is a no-op on a member whose id is already a
participant, and hence a late-joiner scan preserves every existing
participant's stored data (join time, organization, late flag). -/
theorem add_participant_idempotent :
    (∀ (now : ℚ) (m : Member) (s : Session),
        (alookup m.id s.participants).isSome = true →
        add_participant now m s = s) ∧
      (∀ (now : ℚ) (snap : List Member) (s : Session) (id : ℕ) (p : ParticipantData),
        alookup id s.participants = some p →
        alookup id (monitor_scan now snap s).participants = some p) := by
  constructor
  · intro now m s h
    unfold add_participant
    simp [h]
  · intro now snap s id p h
    unfold monitor_scan
    generalize nonBot snap = ms
    induction ms generalizing s with
    | nil => simpa using h
    | cons m rest ih =>
      simp only [List.foldl_cons]
      apply ih
      by_cases hm : (alookup m.id s.participants).isSome
      · simpa [hm] using h
      · simp only [hm, if_false]
        exact add_participant_preserves h

/-- Witness for C10 at a concrete session already containing member id 1. -/
theorem add_participant_idempotent_witness :
    add_participant 5 demoMember demoSession = demoSession ∧
      alookup 1 (monitor_scan 5 [demoMember] demoSession).participants =
        some demoParticipant :=
  ⟨add_participant_idempotent.1 5 demoMember demoSession (by decide),
   add_participant_idempotent.2 5 [demoMember] demoSession 1 demoParticipant rfl⟩

/-- A persisted session record (the `session_doc` dict, lines 426-438). -/
structure SessionDoc where
  user_id : ℕ
  username : String
  organization : String
  session_start : ℚ
  session_end : ℚ
  duration_minutes : ℤ
  month : ℕ
  year : ℕ
  channel_name : String
  late_join : Bool
  completed : Bool
deriving DecidableEq

/-- One leaderboard entry in `top_individuals` (lines 145-150). -/
structure IndEntry where
  user_id : ℕ
  username : String
  org : String
  minutes : ℤ
deriving DecidableEq

/-- A monthly aggregate record (organizations map and leaderboard). -/
structure MonthlyStats where
  organizations : List (String × ℤ)
  top_individuals : List IndEntry
deriving DecidableEq

/-- Default-initialized monthly stats (lines 100-106): every known
organization at 0 minutes and an empty leaderboard. -/
def initStats : MonthlyStats :=
  ⟨ORGANIZATIONS.map (fun o => (o, 0)), []⟩

/-- The durable store: the append-only session-record directory and the
monthly-stats files keyed by (year, month). -/
structure DB where
  sessions : List SessionDoc
  monthly : List ((ℕ × ℕ) × MonthlyStats)

/-- `FileSystemDB.get_user_sessions` filtered to one user and month
(lines 80-95): records are selected by user id and by the year-month
their filename carries. -/
def get_user_sessions (db : DB) (uid y mo : ℕ) : List SessionDoc :=
  db.sessions.filter
    (fun d => decide (d.user_id = uid ∧ d.year = y ∧ d.month = mo))

/-- `FileSystemDB.get_user_monthly_total` (lines 157-160): the sum of
`duration_minutes` over the user's records for the month. -/
def get_user_monthly_total (db : DB) (uid y mo : ℕ) : ℤ :=
  ((get_user_sessions db uid y mo).map SessionDoc.duration_minutes).sum

/-- `FileSystemDB.get_monthly_stats` (lines 97-113): stored value if present,
else default-initialized. -/
def get_monthly_stats (db : DB) (y mo : ℕ) : MonthlyStats :=
  (alookup (y, mo) db.monthly).getD initStats

/-- `FileSystemDB.save_monthly_stats` (lines 115-125): full overwrite of the
month's aggregate. -/
def save_monthly_stats (db : DB) (y mo : ℕ) (st : MonthlyStats) : DB :=
  { db with monthly := ((y, mo), st) :: db.monthly }

/-- `FileSystemDB.save_study_session` (lines 67-78): append-only write. -/
def save_study_session (doc : SessionDoc) (db : DB) : DB :=
  { db with sessions := db.sessions ++ [doc] }

/-- `stats["organizations"][org]["total_minutes"] += minutes` on the
association list (the key is present or was just inserted; key order is
dict insertion order, and keys are unique, so updating the first
occurrence models the dict update). -/
def bumpOrg (org : String) (minutes : ℤ) : List (String × ℤ) → List (String × ℤ)
  | [] => []
  | (o, t) :: rest =>
      if o = org then (o, t + minutes) :: rest
      else (o, t) :: bumpOrg org minutes rest

/-- Arguments of one `update_monthly_stats` call; `year`/`month` stand for
the `datetime.now()` year-month the call runs in. -/
structure FoldOp where
  org : String
  minutes : ℤ
  user_id : ℕ
  username : String
  year : ℕ
  month : ℕ
deriving DecidableEq

/-- The descending-by-minutes comparison used for `top_individuals`
(`sort(key=minutes, reverse=True)` is the stable sort by this relation). -/
def descMinutes (a b : IndEntry) : Bool := decide (b.minutes ≤ a.minutes)

/-- `FileSystemDB.update_monthly_stats` (lines 127-155): load or initialize
the month's stats, ensure the organization key, blindly add `minutes` to the
organization's total, recompute the user's monthly total from the session
records, remove-then-append the user's leaderboard entry, sort descending by
minutes, truncate to 100, and save. -/
def update_monthly_stats (op : FoldOp) (db : DB) : DB :=
  let stats := get_monthly_stats db op.year op.month
  let orgs0 := if (alookup op.org stats.organizations).isSome then
      stats.organizations
    else stats.organizations ++ [(op.org, 0)]
  let orgs := bumpOrg op.org op.minutes orgs0
  let user_total := get_user_monthly_total db op.user_id op.year op.month
  let kept := stats.top_individuals.filter (fun e => decide (e.user_id ≠ op.user_id))
  let tis := (kept ++
      [(⟨op.user_id, op.username, op.org, user_total⟩ : IndEntry)]).mergeSort descMinutes
  save_monthly_stats db op.year op.month ⟨orgs, tis.take 100⟩

/-- A sequence of settlement folds. -/
def applyFolds (ops : List FoldOp) (db : DB) : DB :=
  ops.foldl (fun d op => update_monthly_stats op d) db

/-- The two store mutations the settlement path performs. -/
inductive DBOp
  | save (doc : SessionDoc)
  | fold (op : FoldOp)

def applyOp (db : DB) : DBOp → DB
  | .save d => save_study_session d db
  | .fold op => update_monthly_stats op db

def applyOps (ops : List DBOp) (db : DB) : DB := ops.foldl applyOp db

/-- An organization's accumulated total in a month's aggregate (0 when the
key is absent). -/
def orgTotal (db : DB) (y mo : ℕ) (o : String) : ℤ :=
  ((alookup o (get_monthly_stats db y mo).organizations).getD 0)

/-- The leaderboard invariant of the spec: at most 100 entries, one entry per
user id, sorted descending by minutes. -/
def LeaderboardInv (st : MonthlyStats) : Prop :=
  st.top_individuals.length ≤ 100 ∧
    (st.top_individuals.map IndEntry.user_id).Nodup ∧
    st.top_individuals.Pairwise (fun a b => b.minutes ≤ a.minutes)

theorem alookup_append_of_none {α β : Type} [DecidableEq α] {k : α}
    {l : List (α × β)} (h : alookup k l = none) (l2 : List (α × β)) :
    alookup k (l ++ l2) = alookup k l2 := by
  induction l with
  | nil => simp
  | cons e rest ih =>
    obtain ⟨k2, v2⟩ := e
    by_cases hk : k = k2
    · simp [alookup, hk] at h
    · simp [alookup, hk] at h ⊢
      exact ih h

theorem alookup_bumpOrg_self (org : String) (m : ℤ) (l : List (String × ℤ)) :
    alookup org (bumpOrg org m l) = (alookup org l).map (· + m) := by
  induction l with
  | nil => simp [bumpOrg, alookup]
  | cons e rest ih =>
    obtain ⟨k, t⟩ := e
    by_cases hk : k = org
    · subst hk
      simp [bumpOrg, alookup]
    · have hk2 : ¬ org = k := fun h => hk h.symm
      simp [bumpOrg, alookup, hk, hk2]
      exact ih

theorem alookup_bumpOrg_ne {o org : String} (h : o ≠ org) (m : ℤ)
    (l : List (String × ℤ)) :
    alookup o (bumpOrg org m l) = alookup o l := by
  induction l with
  | nil => simp [bumpOrg]
  | cons e rest ih =>
    obtain ⟨k, t⟩ := e
    by_cases hk : k = org
    · subst hk
      simp [bumpOrg, alookup, h]
    · by_cases ho : o = k
      · simp [bumpOrg, alookup, hk, ho]
      · simp [bumpOrg, alookup, hk, ho]
        exact ih

theorem get_monthly_stats_save (db : DB) (y mo : ℕ) (st : MonthlyStats)
    (y2 mo2 : ℕ) :
    get_monthly_stats (save_monthly_stats db y mo st) y2 mo2 =
      if (y2, mo2) = (y, mo) then st else get_monthly_stats db y2 mo2 := by
  by_cases h : (y2, mo2) = (y, mo) <;>
    simp [get_monthly_stats, save_monthly_stats, alookup, h]

/-- The settlement fold written out: a full overwrite of the month's stats
with the bumped organization totals and the re-sorted, truncated leaderboard. -/
theorem update_monthly_stats_eq (op : FoldOp) (db : DB) :
    update_monthly_stats op db =
      save_monthly_stats db op.year op.month
        ⟨bumpOrg op.org op.minutes
            (if (alookup op.org
                  (get_monthly_stats db op.year op.month).organizations).isSome then
               (get_monthly_stats db op.year op.month).organizations
             else (get_monthly_stats db op.year op.month).organizations ++
               [(op.org, 0)]),
          ((((get_monthly_stats db op.year op.month).top_individuals.filter
                (fun e => decide (e.user_id ≠ op.user_id))) ++
              [(⟨op.user_id, op.username, op.org,
                  get_user_monthly_total db op.user_id op.year op.month⟩ :
                IndEntry)]).mergeSort descMinutes).take 100⟩ := rfl

/-- C7: a settlement fold adds `minutes` to exactly the named organization's
total (a blind increment on whatever total is currently stored, 0 when the
key is absent) and leaves every other organization's total for that month
unchanged. -/
theorem fold_org_totals (db : DB) (op : FoldOp) :
    orgTotal (update_monthly_stats op db) op.year op.month op.org =
        orgTotal db op.year op.month op.org + op.minutes ∧
      ∀ o, o ≠ op.org →
        orgTotal (update_monthly_stats op db) op.year op.month o =
          orgTotal db op.year op.month o := by
  rw [update_monthly_stats_eq]
  set stats := get_monthly_stats db op.year op.month with hstats
  constructor
  · rw [orgTotal, get_monthly_stats_save, if_pos rfl]
    by_cases hin : (alookup op.org stats.organizations).isSome
    · obtain ⟨t, ht⟩ := Option.isSome_iff_exists.1 hin
      rw [if_pos hin]
      rw [alookup_bumpOrg_self, ht]
      simp [orgTotal, ← hstats, ht]
    · have hnone : alookup op.org stats.organizations = none :=
        Option.not_isSome_iff_eq_none.1 hin
      rw [if_neg hin]
      rw [alookup_bumpOrg_self, alookup_append_of_none hnone]
      simp [alookup, orgTotal, ← hstats, hnone]
  · intro o ho
    rw [orgTotal, get_monthly_stats_save, if_pos rfl]
    by_cases hin : (alookup op.org stats.organizations).isSome
    · rw [if_pos hin]
      rw [alookup_bumpOrg_ne ho]
      simp [orgTotal, ← hstats]
    · rw [if_neg hin]
      rw [alookup_bumpOrg_ne ho]
      by_cases hoin : (alookup o stats.organizations).isSome
      · obtain ⟨t, ht⟩ := Option.isSome_iff_exists.1 hoin
        rw [alookup_append_left ht]
        simp [orgTotal, ← hstats, ht]
      · have hnone : alookup o stats.organizations = none :=
          Option.not_isSome_iff_eq_none.1 hoin
        rw [alookup_append_of_none hnone]
        simp [alookup, orgTotal, ← hstats, hnone, ho]

/-- A concrete fold operation for witnesses. -/
def demoFold : FoldOp := ⟨"Wina", 25, 1, "ada", 2025, 10⟩

/-- An initially empty store. -/
def demoDB : DB := ⟨[], []⟩

/-- Witness for C7 at a concrete fold: the "Wina" total is incremented and a
different organization's total is untouched. -/
theorem fold_org_totals_witness :
    orgTotal (update_monthly_stats demoFold demoDB) 2025 10 "Wina" =
        orgTotal demoDB 2025 10 "Wina" + 25 ∧
      orgTotal (update_monthly_stats demoFold demoDB) 2025 10 "VTK" =
        orgTotal demoDB 2025 10 "VTK" :=
  ⟨(fold_org_totals demoDB demoFold).1,
   (fold_org_totals demoDB demoFold).2 "VTK" (by decide)⟩

theorem applyFolds_sessions (ops : List FoldOp) (db : DB) :
    (applyFolds ops db).sessions = db.sessions := by
  induction ops generalizing db with
  | nil => rfl
  | cons op rest ih =>
    show (applyFolds rest (update_monthly_stats op db)).sessions = db.sessions
    rw [ih]
    rfl

/-- C2: the minutes value a settlement fold upserts into the user's
leaderboard entry is recomputed as the sum of `duration_minutes` over that
user's persisted session records for the month; folds never modify the
session records, so the recomputed value is independent of the order in
which settlements were folded. -/
theorem fold_recomputes_user_total (db : DB) (op : FoldOp) :
    (update_monthly_stats op db).sessions = db.sessions ∧
      (∀ e ∈ (get_monthly_stats (update_monthly_stats op db) op.year
          op.month).top_individuals,
        e.user_id = op.user_id →
        e.minutes = ((db.sessions.filter
            (fun d => decide (d.user_id = op.user_id ∧ d.year = op.year ∧
              d.month = op.month))).map SessionDoc.duration_minutes).sum) ∧
      ∀ (ops : List FoldOp) (uid y mo : ℕ),
        get_user_monthly_total (applyFolds ops db) uid y mo =
          get_user_monthly_total db uid y mo := by
  refine ⟨rfl, ?_, ?_⟩
  · rw [update_monthly_stats_eq, get_monthly_stats_save, if_pos rfl]
    intro e he heq
    have hmem := List.mem_of_mem_take he
    rw [List.mem_mergeSort] at hmem
    rcases List.mem_append.1 hmem with h | h
    · have hne := (List.mem_filter.1 h).2
      simp only [decide_eq_true_eq] at hne
      exact absurd heq hne
    · have : e = ⟨op.user_id, op.username, op.org,
          get_user_monthly_total db op.user_id op.year op.month⟩ :=
        List.mem_singleton.1 h
      rw [this]
      rfl
  · intro ops uid y mo
    simp only [get_user_monthly_total, get_user_sessions, applyFolds_sessions]

/-- Witness for C2 at the empty store: the upserted entry's minutes equal the
(empty) sum over the user's records, and fold sequences leave the records
unchanged. -/
theorem fold_recomputes_user_total_witness :
    (update_monthly_stats demoFold demoDB).sessions = demoDB.sessions ∧
      (⟨1, "ada", "Wina", 0⟩ : IndEntry).minutes =
        ((demoDB.sessions.filter
            (fun d => decide (d.user_id = demoFold.user_id ∧
              d.year = demoFold.year ∧
              d.month = demoFold.month))).map SessionDoc.duration_minutes).sum ∧
      get_user_monthly_total (applyFolds [demoFold] demoDB) 1 2025 10 =
        get_user_monthly_total demoDB 1 2025 10 := by
  have hmem : (⟨1, "ada", "Wina", 0⟩ : IndEntry) ∈
      (get_monthly_stats (update_monthly_stats demoFold demoDB)
        demoFold.year demoFold.month).top_individuals := by
    rw [update_monthly_stats_eq, get_monthly_stats_save, if_pos rfl]
    simp [demoFold, demoDB, get_monthly_stats, alookup, initStats,
      get_user_monthly_total, get_user_sessions]
  exact ⟨(fold_recomputes_user_total demoDB demoFold).1,
    (fold_recomputes_user_total demoDB demoFold).2.1 _ hmem rfl,
    (fold_recomputes_user_total demoDB demoFold).2.2 [demoFold] 1 2025 10⟩

theorem descMinutes_trans (a b c : IndEntry) :
    descMinutes a b → descMinutes b c → descMinutes a c := by
  simp only [descMinutes, decide_eq_true_eq]
  exact fun h1 h2 => le_trans h2 h1

theorem descMinutes_total (a b : IndEntry) :
    descMinutes a b || descMinutes b a := by
  simp only [descMinutes, Bool.or_eq_true, decide_eq_true_eq]
  exact le_total b.minutes a.minutes

/-- A settlement fold preserves the leaderboard invariant for every month. -/
theorem leaderboardInv_update (db : DB) (op : FoldOp)
    (h : ∀ y mo, LeaderboardInv (get_monthly_stats db y mo)) (y mo : ℕ) :
    LeaderboardInv (get_monthly_stats (update_monthly_stats op db) y mo) := by
  rw [update_monthly_stats_eq, get_monthly_stats_save]
  by_cases hym : (y, mo) = (op.year, op.month)
  · rw [if_pos hym]
    obtain ⟨hlen, hnodup, hsort⟩ := h op.year op.month
    set stats := get_monthly_stats db op.year op.month with hstats
    set kept := stats.top_individuals.filter
      (fun e => decide (e.user_id ≠ op.user_id)) with hkept
    set newEntry : IndEntry := ⟨op.user_id, op.username, op.org,
      get_user_monthly_total db op.user_id op.year op.month⟩ with hnew
    refine ⟨?_, ?_, ?_⟩
    · exact List.length_take_le 100 _
    · have hkept_nodup : (kept.map IndEntry.user_id).Nodup :=
        hnodup.sublist ((List.filter_sublist _).map _)
      have hnotin : op.user_id ∉ kept.map IndEntry.user_id := by
        intro hmem
        obtain ⟨e, he, heq⟩ := List.mem_map.1 hmem
        have hne := (List.mem_filter.1 he).2
        simp only [decide_eq_true_eq] at hne
        exact hne heq
      have happ : ((kept ++ [newEntry]).map IndEntry.user_id).Nodup := by
        rw [List.map_append]
        refine List.Nodup.append hkept_nodup (by simp) ?_
        intro a ha hb
        simp only [List.map_cons, List.map_nil, List.mem_singleton] at hb
        rw [hb] at ha
        exact hnotin ha
      have hperm : List.Perm
          (((kept ++ [newEntry]).mergeSort descMinutes).map IndEntry.user_id)
          ((kept ++ [newEntry]).map IndEntry.user_id) :=
        (List.mergeSort_perm _ _).map _
      have htis : (((kept ++ [newEntry]).mergeSort descMinutes).map
          IndEntry.user_id).Nodup := hperm.nodup_iff.2 happ
      have hsub : List.Sublist
          ((((kept ++ [newEntry]).mergeSort descMinutes).take 100).map
            IndEntry.user_id)
          (((kept ++ [newEntry]).mergeSort descMinutes).map IndEntry.user_id) :=
        (List.take_sublist _ _).map _
      exact htis.sublist hsub
    · have hs := @List.sorted_mergeSort IndEntry descMinutes descMinutes_trans
        descMinutes_total (kept ++ [newEntry])
      have hs2 : ((kept ++ [newEntry]).mergeSort descMinutes).Pairwise
          (fun a b => b.minutes ≤ a.minutes) := by
        refine hs.imp ?_
        intro a b hab
        simpa [descMinutes] using hab
      exact hs2.sublist (List.take_sublist _ _)
  · rw [if_neg hym]
    exact h y mo

theorem leaderboardInv_applyOps (ops : List DBOp) (db : DB)
    (h : ∀ y mo, LeaderboardInv (get_monthly_stats db y mo)) :
    ∀ y mo, LeaderboardInv (get_monthly_stats (applyOps ops db) y mo) := by
  induction ops generalizing db with
  | nil => exact h
  | cons op rest ih =>
    show ∀ y mo, LeaderboardInv (get_monthly_stats (applyOps rest (applyOp db op)) y mo)
    apply ih
    cases op with
    | save doc => exact h
    | fold f => exact leaderboardInv_update db f h

/-- C3: starting from a store with no monthly aggregates, after any sequence
of record writes and settlement folds, every month's `top_individuals` has at
most 100 entries, at most one entry per user id, and is sorted descending by
minutes. -/
theorem leaderboard_invariant (ops : List DBOp) (sess : List SessionDoc)
    (y mo : ℕ) :
    LeaderboardInv (get_monthly_stats (applyOps ops ⟨sess, []⟩) y mo) := by
  apply leaderboardInv_applyOps
  intro y2 mo2
  simp [LeaderboardInv, get_monthly_stats, alookup, initStats]

/-- Accumulated effects of `PomodoroSession.award_credit` (lines 397-454):
persisted records, aggregation folds, the credit summary entries, the users
mentioned as awarded, and the left-early tally. -/
structure AwardOutcome where
  records : List SessionDoc
  folds : List FoldOp
  credit_details : List (ℕ × ℤ × Bool)
  awarded_users : List ℕ
  left_early : ℕ
deriving DecidableEq

def emptyOutcome : AwardOutcome := ⟨[], [], [], [], 0⟩

/-- One iteration of the settlement loop (lines 409-454): a participant
present in the snapshot is mentioned as awarded and, when the computed
credit is positive, produces a session record, an aggregation fold and a
summary entry; an absent participant only increments the left-early tally. -/
def awardStep (s : Session) (currentIds : List ℕ) (study_end : ℚ) (y mo : ℕ)
    (chan : String) (acc : AwardOutcome) (e : ℕ × ParticipantData) : AwardOutcome :=
  if e.1 ∈ currentIds then
    let mins := minutes_to_award s.duration s.session_start study_end e.2
    if 0 < mins then
      { acc with
        awarded_users := acc.awarded_users ++ [e.1],
        records := acc.records ++
          [⟨e.1, e.2.user.name, e.2.organization, e.2.join_time, study_end,
            mins, mo, y, chan, e.2.late_join, true⟩],
        folds := acc.folds ++ [⟨e.2.organization, mins, e.1, e.2.user.name, y, mo⟩],
        credit_details := acc.credit_details ++ [(e.1, mins, e.2.late_join)] }
    else { acc with awarded_users := acc.awarded_users ++ [e.1] }
  else { acc with left_early := acc.left_early + 1 }

/-- `PomodoroSession.award_credit`: early return when not running, else the
loop over the participant dict against the snapshot taken at `study_end`. -/
def award_credit (s : Session) (currentIds : List ℕ) (study_end : ℚ)
    (y mo : ℕ) (chan : String) : AwardOutcome :=
  if s.is_running then
    s.participants.foldl (awardStep s currentIds study_end y mo chan) emptyOutcome
  else emptyOutcome

/-- A participant entry settles (produces a record and a fold) iff it is in
the snapshot and its computed credit is positive. -/
def settles (s : Session) (currentIds : List ℕ) (study_end : ℚ)
    (e : ℕ × ParticipantData) : Bool :=
  decide (e.1 ∈ currentIds) &&
    decide (0 < minutes_to_award s.duration s.session_start study_end e.2)

def recordOf (s : Session) (study_end : ℚ) (y mo : ℕ) (chan : String)
    (e : ℕ × ParticipantData) : SessionDoc :=
  ⟨e.1, e.2.user.name, e.2.organization, e.2.join_time, study_end,
   minutes_to_award s.duration s.session_start study_end e.2, mo, y, chan,
   e.2.late_join, true⟩

def foldOf (s : Session) (study_end : ℚ) (y mo : ℕ)
    (e : ℕ × ParticipantData) : FoldOp :=
  ⟨e.2.organization, minutes_to_award s.duration s.session_start study_end e.2,
   e.1, e.2.user.name, y, mo⟩

def detailOf (s : Session) (study_end : ℚ) (e : ℕ × ParticipantData) :
    ℕ × ℤ × Bool :=
  (e.1, minutes_to_award s.duration s.session_start study_end e.2, e.2.late_join)

/-- Closed form of the settlement loop. -/
theorem award_foldl (s : Session) (cur : List ℕ) (se : ℚ) (y mo : ℕ)
    (chan : String) :
    ∀ (l : List (ℕ × ParticipantData)) (acc : AwardOutcome),
      l.foldl (awardStep s cur se y mo chan) acc =
        ⟨acc.records ++ (l.filter (settles s cur se)).map (recordOf s se y mo chan),
         acc.folds ++ (l.filter (settles s cur se)).map (foldOf s se y mo),
         acc.credit_details ++ (l.filter (settles s cur se)).map (detailOf s se),
         acc.awarded_users ++ (l.filter (fun e => decide (e.1 ∈ cur))).map Prod.fst,
         acc.left_early + (l.filter (fun e => decide (e.1 ∉ cur))).length⟩ := by
  intro l
  induction l with
  | nil => intro acc; simp
  | cons e rest ih =>
    intro acc
    rw [List.foldl_cons, ih]
    by_cases h1 : e.1 ∈ cur
    · by_cases h2 : 0 < minutes_to_award s.duration s.session_start se e.2
      · simp [awardStep, settles, recordOf, foldOf, detailOf, h1, h2]
      · simp [awardStep, settles, h1, h2]
    · simp [awardStep, settles, h1]
      omega

theorem nodup_fst_eq {α β : Type} {l : List (α × β)}
    (h : (l.map Prod.fst).Nodup) {k : α} {a b : β}
    (ha : (k, a) ∈ l) (hb : (k, b) ∈ l) : a = b := by
  induction l with
  | nil => simp at ha
  | cons e rest ih =>
    simp only [List.map_cons, List.nodup_cons] at h
    rcases List.mem_cons.1 ha with ha1 | ha1 <;>
      rcases List.mem_cons.1 hb with hb1 | hb1
    · rw [← ha1] at hb1
      exact (congrArg Prod.snd hb1).symm
    · exfalso
      apply h.1
      rw [← ha1]
      exact List.mem_map.2 ⟨(k, b), hb1, rfl⟩
    · exfalso
      apply h.1
      rw [← hb1]
      exact List.mem_map.2 ⟨(k, a), ha1, rfl⟩
    · exact ih h.2 ha1 hb1

/-- C5: at settlement, a participant absent from the snapshot taken at
`study_end` produces no persisted record, no aggregation fold and no credit
entry, and the left-early tally counts exactly the absent participants;
likewise a present participant whose computed award is 0 produces no record,
no fold and no credit entry. -/
theorem settlement_absent_and_zero (s : Session) (cur : List ℕ) (se : ℚ)
    (y mo : ℕ) (chan : String) (hrun : s.is_running = true)
    (hnd : (s.participants.map Prod.fst).Nodup) :
    (∀ id p, (id, p) ∈ s.participants → id ∉ cur →
      (∀ r ∈ (award_credit s cur se y mo chan).records, r.user_id ≠ id) ∧
        (∀ f ∈ (award_credit s cur se y mo chan).folds, f.user_id ≠ id) ∧
        (∀ cd ∈ (award_credit s cur se y mo chan).credit_details, cd.1 ≠ id)) ∧
      (award_credit s cur se y mo chan).left_early =
        (s.participants.filter (fun e => decide (e.1 ∉ cur))).length ∧
      (∀ id p, (id, p) ∈ s.participants → id ∈ cur →
        minutes_to_award s.duration s.session_start se p = 0 →
        (∀ r ∈ (award_credit s cur se y mo chan).records, r.user_id ≠ id) ∧
          (∀ f ∈ (award_credit s cur se y mo chan).folds, f.user_id ≠ id) ∧
          (∀ cd ∈ (award_credit s cur se y mo chan).credit_details, cd.1 ≠ id)) := by
  have hac : award_credit s cur se y mo chan =
      ⟨(s.participants.filter (settles s cur se)).map (recordOf s se y mo chan),
       (s.participants.filter (settles s cur se)).map (foldOf s se y mo),
       (s.participants.filter (settles s cur se)).map (detailOf s se),
       (s.participants.filter (fun e => decide (e.1 ∈ cur))).map Prod.fst,
       (s.participants.filter (fun e => decide (e.1 ∉ cur))).length⟩ := by
    rw [award_credit, if_pos hrun, award_foldl]
    simp [emptyOutcome]
  have hset : ∀ e ∈ s.participants.filter (settles s cur se),
      e.1 ∈ cur ∧ 0 < minutes_to_award s.duration s.session_start se e.2 := by
    intro e he
    have := (List.mem_filter.1 he).2
    simpa [settles] using this
  have hsub : ∀ e ∈ s.participants.filter (settles s cur se),
      e ∈ s.participants := fun e he => (List.mem_filter.1 he).1
  refine ⟨?_, ?_, ?_⟩
  · intro id p hp habs
    rw [hac]
    refine ⟨?_, ?_, ?_⟩
    · intro r hr
      obtain ⟨e, he, hre⟩ := List.mem_map.1 hr
      intro hid
      apply habs
      have : r.user_id = e.1 := by rw [← hre]; rfl
      rw [← hid, this]
      exact (hset e he).1
    · intro f hf
      obtain ⟨e, he, hfe⟩ := List.mem_map.1 hf
      intro hid
      apply habs
      have : f.user_id = e.1 := by rw [← hfe]; rfl
      rw [← hid, this]
      exact (hset e he).1
    · intro cd hcd
      obtain ⟨e, he, hcde⟩ := List.mem_map.1 hcd
      intro hid
      apply habs
      have : cd.1 = e.1 := by rw [← hcde]; rfl
      rw [← hid, this]
      exact (hset e he).1
  · rw [hac]
  · intro id p hp hpres hzero
    rw [hac]
    refine ⟨?_, ?_, ?_⟩
    · intro r hr
      obtain ⟨e, he, hre⟩ := List.mem_map.1 hr
      intro hid
      have h1 : r.user_id = e.1 := by rw [← hre]; rfl
      have h2 : e.1 = id := by rw [← h1, hid]
      have h3 : e.2 = p := by
        apply nodup_fst_eq hnd _ hp
        rw [← h2]
        exact hsub e he
      have := (hset e he).2
      rw [h3, hzero] at this
      exact absurd this (by norm_num)
    · intro f hf
      obtain ⟨e, he, hfe⟩ := List.mem_map.1 hf
      intro hid
      have h1 : f.user_id = e.1 := by rw [← hfe]; rfl
      have h2 : e.1 = id := by rw [← h1, hid]
      have h3 : e.2 = p := by
        apply nodup_fst_eq hnd _ hp
        rw [← h2]
        exact hsub e he
      have := (hset e he).2
      rw [h3, hzero] at this
      exact absurd this (by norm_num)
    · intro cd hcd
      obtain ⟨e, he, hcde⟩ := List.mem_map.1 hcd
      intro hid
      have h1 : cd.1 = e.1 := by rw [← hcde]; rfl
      have h2 : e.1 = id := by rw [← h1, hid]
      have h3 : e.2 = p := by
        apply nodup_fst_eq hnd _ hp
        rw [← h2]
        exact hsub e he
      have := (hset e he).2
      rw [h3, hzero] at this
      exact absurd this (by norm_num)

/-- A participant who joined exactly at the study end (computed award 0). -/
def lateZeroParticipant : ParticipantData := ⟨⟨2, false, "bea", []⟩, "None", 1500, false⟩

/-- A session with one participant who left and one present with zero award. -/
def settleSession : Session := ⟨25, 5, [(1, demoParticipant), (2, lateZeroParticipant)], 0, true⟩

/-- Witness for C5: participant 1 is absent from the snapshot, participant 2
is present with a computed award of 0; neither yields a record or a fold, and
the left-early tally is 1. -/
theorem settlement_absent_and_zero_witness :
    ((∀ r ∈ (award_credit settleSession [2] 1500 2025 10 "study").records,
        r.user_id ≠ 1) ∧
      (∀ f ∈ (award_credit settleSession [2] 1500 2025 10 "study").folds,
        f.user_id ≠ 1) ∧
      (∀ cd ∈ (award_credit settleSession [2] 1500 2025 10 "study").credit_details,
        cd.1 ≠ 1)) ∧
      (award_credit settleSession [2] 1500 2025 10 "study").left_early =
        (settleSession.participants.filter (fun e => decide (e.1 ∉ [2]))).length ∧
      ((∀ r ∈ (award_credit settleSession [2] 1500 2025 10 "study").records,
        r.user_id ≠ 2) ∧
      (∀ f ∈ (award_credit settleSession [2] 1500 2025 10 "study").folds,
        f.user_id ≠ 2) ∧
      (∀ cd ∈ (award_credit settleSession [2] 1500 2025 10 "study").credit_details,
        cd.1 ≠ 2)) := by
  have h := settlement_absent_and_zero settleSession [2] 1500 2025 10 "study"
    rfl (by decide)
  refine ⟨h.1 1 demoParticipant (by simp [settleSession]) (by decide),
    h.2.1,
    h.2.2 2 lateZeroParticipant (by simp [settleSession]) (by decide) ?_⟩
  norm_num [minutes_to_award, lateZeroParticipant, pyInt, settleSession]

/-- Outcomes of the `/pomodoro` command's admission phase. -/
inductive StartResult
  | NotInVoice | ChannelEmpty | Conflict | InvalidConfig | Started
deriving DecidableEq

/-- The admission logic of `pomodoro_slash` (lines 594-618), with the checks
in source order: user in voice, channel non-empty, no active session for the
channel, study bounds, break bounds; on success the channel id is added to
the registry (`active_sessions`). -/
def pomodoro_slash (userInVoice : Bool) (channelMembers : List Member)
    (cid : ℕ) (reg : List ℕ) (study_minutes break_minutes : ℤ) :
    StartResult × List ℕ :=
  if !userInVoice then (StartResult.NotInVoice, reg)
  else if (nonBot channelMembers).isEmpty then (StartResult.ChannelEmpty, reg)
  else if cid ∈ reg then (StartResult.Conflict, reg)
  else if study_minutes > 120 ∨ study_minutes < 1 then (StartResult.InvalidConfig, reg)
  else if break_minutes > 60 ∨ break_minutes < 0 then (StartResult.InvalidConfig, reg)
  else (StartResult.Started, cid :: reg)

/-- C6 counterexample: with an empty channel and `study_minutes = 0` (out of
bounds) the command fails with `ChannelEmpty`, not `InvalidConfig` — the
emptiness check runs before the duration checks, so "fails with InvalidConfig
whenever studyMinutes is outside [1,120]" is false as stated. -/
theorem pomodoro_rejection_counterexample :
    ((0 : ℤ) < 1) ∧
      (pomodoro_slash true [] 7 [] 0 5).1 = StartResult.ChannelEmpty ∧
      (pomodoro_slash true [] 7 [] 0 5).1 ≠ StartResult.InvalidConfig :=
  ⟨by norm_num, by decide, by decide⟩

/-- C6 amended: the rejection checks are applied in source order — empty
channel first, then conflict, then duration bounds — so `ChannelEmpty` is
reported whenever the channel has no non-bot occupant, `Conflict` only on a
non-empty channel with an active session, and `InvalidConfig` only on a
non-empty, conflict-free channel with out-of-range durations; every
rejection leaves the registry (and hence any active session handle)
unchanged, and the command succeeds exactly when all checks pass, adding the
channel to the registry. -/
theorem pomodoro_rejection_amended (ms : List Member) (cid : ℕ) (reg : List ℕ)
    (sm bm : ℤ) :
    ((nonBot ms).isEmpty = true →
        pomodoro_slash true ms cid reg sm bm = (StartResult.ChannelEmpty, reg)) ∧
      (¬ (nonBot ms).isEmpty = true → cid ∈ reg →
        pomodoro_slash true ms cid reg sm bm = (StartResult.Conflict, reg)) ∧
      (¬ (nonBot ms).isEmpty = true → cid ∉ reg →
        (sm > 120 ∨ sm < 1 ∨ bm > 60 ∨ bm < 0) →
        pomodoro_slash true ms cid reg sm bm = (StartResult.InvalidConfig, reg)) ∧
      ((pomodoro_slash true ms cid reg sm bm).1 = StartResult.Started ↔
        ¬ (nonBot ms).isEmpty = true ∧ cid ∉ reg ∧
          1 ≤ sm ∧ sm ≤ 120 ∧ 0 ≤ bm ∧ bm ≤ 60) ∧
      ((pomodoro_slash true ms cid reg sm bm).1 = StartResult.Started →
        (pomodoro_slash true ms cid reg sm bm).2 = cid :: reg) := by
  refine ⟨?_, ?_, ?_, ?_, ?_⟩
  · intro he
    simp [pomodoro_slash, he]
  · intro he hc
    simp [pomodoro_slash, he, hc]
  · intro he hc hb
    rcases hb with hb | hb | hb | hb <;>
      by_cases h1 : sm > 120 ∨ sm < 1 <;>
      simp [pomodoro_slash, he, hc, h1] <;> omega
  · constructor
    · intro h
      by_cases he : (nonBot ms).isEmpty <;>
        by_cases hc : cid ∈ reg <;>
        by_cases h1 : sm > 120 ∨ sm < 1 <;>
        by_cases h2 : bm > 60 ∨ bm < 0 <;>
        simp [pomodoro_slash, he, hc, h1, h2] at h ⊢ <;> omega
    · rintro ⟨he, hc, h1, h2, h3, h4⟩
      have hs : ¬ (sm > 120 ∨ sm < 1) := by omega
      have hb : ¬ (bm > 60 ∨ bm < 0) := by omega
      simp [pomodoro_slash, he, hc, hs, hb]
  · intro h
    by_cases he : (nonBot ms).isEmpty <;>
      by_cases hc : cid ∈ reg <;>
      by_cases h1 : sm > 120 ∨ sm < 1 <;>
      by_cases h2 : bm > 60 ∨ bm < 0 <;>
      simp [pomodoro_slash, he, hc, h1, h2] at h ⊢

/-- Witness for C6's amended statement at concrete inputs: an empty channel
is rejected as `ChannelEmpty` even with a bad configuration, and a valid
request on an occupied, conflict-free channel is admitted. -/
theorem pomodoro_rejection_amended_witness :
    (pomodoro_slash true [] 7 [] 0 5 = (StartResult.ChannelEmpty, []) ∧
       pomodoro_slash true [demoMember] 7 [7] 25 5 = (StartResult.Conflict, [7])) ∧
      pomodoro_slash true [demoMember] 7 [] 0 5 = (StartResult.InvalidConfig, []) :=
  ⟨⟨(pomodoro_rejection_amended [] 7 [] 0 5).1 (by decide),
    (pomodoro_rejection_amended [demoMember] 7 [7] 25 5).2.1 (by decide) (by decide)⟩,
   (pomodoro_rejection_amended [demoMember] 7 [] 0 5).2.2.1 (by decide) (by decide)
     (by norm_num)⟩

/-- The three ways the admitted session's control flow can exit the `try`
block of `pomodoro_slash`: `start()` returns after running to completion,
returns after an abort, or raises an exception mid-session. -/
inductive SessionOutcome
  | completed | aborted | raised
deriving DecidableEq

/-- The `finally` block of `pomodoro_slash` (lines 622-624): delete the
channel's handle from `active_sessions` if it is present. -/
def registryCleanup (reg : List ℕ) (cid : ℕ) : List ℕ :=
  if cid ∈ reg then reg.erase cid else reg

/-- The registry effect of one admitted session (lines 617-624): the handle
is added, the session body runs to some outcome — the body never mutates the
registry — and the `finally` block runs on every exit path, so the cleanup
does not depend on the outcome. -/
def runAdmitted (reg : List ℕ) (cid : ℕ) (o : SessionOutcome) : List ℕ :=
  registryCleanup (cid :: reg) cid

/-- C8: whatever the session's outcome (completion, abort or an exception),
the admitted channel's handle is removed by the guaranteed cleanup: the
registry is restored, the channel holds no live handle, handles stay unique,
and the retired channel is admitted again by a subsequent valid command. -/
theorem registry_cleanup_unconditional (reg : List ℕ) (cid : ℕ)
    (o : SessionOutcome) (h : cid ∉ reg) :
    runAdmitted reg cid o = reg ∧
      cid ∉ runAdmitted reg cid o ∧
      (reg.Nodup → (cid :: reg).Nodup ∧ (runAdmitted reg cid o).Nodup) ∧
      (pomodoro_slash true [demoMember] cid (runAdmitted reg cid o) 25 5).1 =
        StartResult.Started := by
  have h1 : runAdmitted reg cid o = reg := by
    simp [runAdmitted, registryCleanup]
  refine ⟨h1, ?_, ?_, ?_⟩
  · rw [h1]; exact h
  · intro hnd
    refine ⟨List.nodup_cons.2 ⟨h, hnd⟩, ?_⟩
    rw [h1]; exact hnd
  · rw [h1]
    simp [pomodoro_slash, nonBot, demoMember, h]

/-- Witness for C8 at a concrete channel and the exception outcome. -/
theorem registry_cleanup_unconditional_witness :
    runAdmitted [] 7 SessionOutcome.raised = [] ∧
      7 ∉ runAdmitted [] 7 SessionOutcome.raised ∧
      (([] : List ℕ).Nodup →
        (7 :: ([] : List ℕ)).Nodup ∧ (runAdmitted [] 7 SessionOutcome.raised).Nodup) ∧
      (pomodoro_slash true [demoMember] 7 (runAdmitted [] 7 SessionOutcome.raised)
        25 5).1 = StartResult.Started :=
  registry_cleanup_unconditional [] 7 SessionOutcome.raised (by decide)

/-- States of the session lifecycle. -/
inductive SessState
  | Idle | Starting | Studying | Settling | OnBreak | Completed | Aborted
deriving DecidableEq

/-- The sequence of states one session traverses, as `PomodoroSession.start`
drives it (lines 246-291): the only abort is the empty-channel check on the
initial occupant snapshot (lines 248-252); the study loop (lines 358-384)
reads mid-study occupancy snapshots only to display a member count and never
branches on them, so the machine proceeds through settlement, break and
completion regardless of the `midStudySnapshots` argument. -/
def sessionTrace (initialMembers : List Member)
    (midStudySnapshots : List (List Member)) : List SessState :=
  if (nonBot initialMembers).isEmpty then
    [SessState.Idle, SessState.Starting, SessState.Aborted]
  else
    [SessState.Idle, SessState.Starting, SessState.Studying, SessState.Settling,
     SessState.OnBreak, SessState.Completed]

/-- C9 counterexample: a session started with one eligible occupant whose
channel is empty at a mid-study snapshot still reaches `Completed` (via
`Settling` and `OnBreak`) and never reaches `Aborted` — the study loop does
not abort on empty occupancy. -/
theorem abort_on_empty_counterexample :
    SessState.Studying ∈ sessionTrace [demoMember] [[]] ∧
      (∃ snap ∈ [([] : List Member)], (nonBot snap).isEmpty = true) ∧
      SessState.Settling ∈ sessionTrace [demoMember] [[]] ∧
      SessState.Completed ∈ sessionTrace [demoMember] [[]] ∧
      SessState.Aborted ∉ sessionTrace [demoMember] [[]] := by
  refine ⟨by decide, ⟨[], by decide⟩, by decide, by decide, by decide⟩

/-- C9 amended: the `Aborted` terminal is reached exactly when the channel
has zero eligible occupants at the `Starting` snapshot; zero occupancy
observed while `Studying` does not abort the machine — it proceeds to
`Settling`, `OnBreak` and `Completed` regardless of mid-study occupancy. -/
theorem abort_only_at_start_amended (init : List Member)
    (mids : List (List Member)) :
    ((nonBot init).isEmpty = true →
        sessionTrace init mids =
          [SessState.Idle, SessState.Starting, SessState.Aborted]) ∧
      (¬ (nonBot init).isEmpty = true →
        sessionTrace init mids =
          [SessState.Idle, SessState.Starting, SessState.Studying,
           SessState.Settling, SessState.OnBreak, SessState.Completed] ∧
          SessState.Aborted ∉ sessionTrace init mids) := by
  constructor
  · intro h
    simp [sessionTrace, h]
  · intro h
    constructor
    · simp [sessionTrace, h]
    · simp [sessionTrace, h]

/-- Witness for C9's amended statement: an empty initial channel aborts; a
session seeded with one member completes even though the mid-study snapshot
is empty. -/
theorem abort_only_at_start_amended_witness :
    sessionTrace [] [] = [SessState.Idle, SessState.Starting, SessState.Aborted] ∧
      (sessionTrace [demoMember] [[]] =
          [SessState.Idle, SessState.Starting, SessState.Studying,
           SessState.Settling, SessState.OnBreak, SessState.Completed] ∧
        SessState.Aborted ∉ sessionTrace [demoMember] [[]]) :=
  ⟨(abort_only_at_start_amended [] []).1 (by decide),
   (abort_only_at_start_amended [demoMember] [[]]).2 (by decide)⟩

end StudyBot
